import Mathlib

/-!
Verification development for the financial-intelligence-platform backend.

The Python sources under `backend/app` are shallowly embedded as Lean
definitions.  External collaborators (the Claude structured-generation call,
`json.loads`, `feedparser`, `yfinance`, the HTTP stack, the relational store)
are modelled as explicit oracle parameters; all decision logic belongs to the
repository and is translated statement by statement from the sources named in
the doc comments.  Strings handled by the defensive JSON-parsing layer are
modelled as `List Char` so that every theorem can be checked by evaluation.
-/

/-! ## JSON values

Model of the Python values produced by `json.loads`: numbers are collapsed to
`ℚ` (int/float distinction is irrelevant to every claim). -/

inductive JsonVal where
  | jnull : JsonVal
  | jbool : Bool → JsonVal
  | jnum : ℚ → JsonVal
  | jstr : String → JsonVal
  | jarr : List JsonVal → JsonVal
  | jobj : List (String × JsonVal) → JsonVal
deriving BEq

/-- `dict.get(k)` on a parsed JSON object; `none` on non-objects. -/
def jGet (v : JsonVal) (k : String) : Option JsonVal :=
  match v with
  | .jobj o => List.lookup k o
  | _ => none

/-- `dict.get(k, d)` where the caller expects a string.  The Python code
stores whatever value the model returned; no claim proved here inspects a
non-string value under these keys, so non-string values fall back to `d`. -/
def jStrD (v : Option JsonVal) (d : String) : String :=
  match v with
  | some (.jstr s) => s
  | _ => d

/-- `dict.get(k, d)` where the caller expects a number. -/
def jNumD (v : Option JsonVal) (d : ℚ) : ℚ :=
  match v with
  | some (.jnum q) => q
  | _ => d

/-! ## Defensive JSON extraction — `app/agents/base.py`, `call_claude_json`

The model response is a `List Char`; `json.loads` is the external stdlib
parser, passed in as `parse : List Char → Option JsonVal` (`none` models
`json.JSONDecodeError`). -/

/-- Split a character list at the first occurrence of `pat` (a nonempty
pattern): returns the remainder after the pattern, or `none`. -/
def dropAfterFirst (pat : List Char) : List Char → Option (List Char)
  | [] => if pat = [] then some [] else none
  | c :: rest =>
    if pat = (c :: rest).take pat.length then some ((c :: rest).drop pat.length)
    else dropAfterFirst pat rest

/-- The text strictly before the first occurrence of `pat` in `l`, when `pat`
occurs. -/
def takeBeforeFirst (pat : List Char) : List Char → Option (List Char)
  | [] => if pat = [] then some [] else none
  | c :: rest =>
    if pat = (c :: rest).take pat.length then some []
    else (takeBeforeFirst pat rest).map (c :: ·)

def isPySpace (c : Char) : Bool :=
  c = ' ' ∨ c = '\t' ∨ c = '\n' ∨ c = '\r' ∨ c = '\x0b' ∨ c = '\x0c'

/-- Python `str.strip()`. -/
def pyStrip (l : List Char) : List Char :=
  ((l.dropWhile isPySpace).reverse.dropWhile isPySpace).reverse

/-- The three-backtick code-fence delimiter. -/
def fenceChars : List Char := [Char.ofNat 96, Char.ofNat 96, Char.ofNat 96]

def jsonTag : List Char := ['j', 's', 'o', 'n']

/-- `re.search` for the code-fence pattern of `call_claude_json` (a fence,
an optional `json` tag, lazy content, a closing fence): when the response
contains an opening and a closing fence, the stripped inner text replaces the
raw response; otherwise the response is left untouched. -/
def stripFences (raw : List Char) : List Char :=
  match dropAfterFirst fenceChars raw with
  | none => raw
  | some rest =>
    match takeBeforeFirst fenceChars rest with
    | none => raw
    | some inner =>
      let inner' := if inner.take 4 = jsonTag then inner.drop 4 else inner
      pyStrip inner'

/-- `re.search(r"\[[\s\S]*\]", r)` (and the `{`/`}` variant): the slice of
`l` from the first `openC` to the last `closeC`, when that span is nonempty.
The regex is greedy, so the match always runs to the last closer. -/
def extractBracketed (openC closeC : Char) (l : List Char) : Option (List Char) :=
  let s := l.dropWhile (· ≠ openC)
  if s = [] then none
  else
    let t := (s.reverse.dropWhile (· ≠ closeC)).reverse
    if t = [] then none else some t

/-- Error payload of the `ValueError` raised when every parse attempt fails
(`f"Could not parse JSON from Claude response: {raw[:200]}"`). -/
def parseErrMsg (raw : List Char) : List Char :=
  "Could not parse JSON from Claude response: ".data ++ raw.take 200

/-- `call_claude_json` (`app/agents/base.py`): strip a markdown code fence,
try a direct `json.loads`, then try the greedy first-`[`-to-last-`]` slice,
then the greedy first-`{`-to-last-`}` slice, and finally raise `ValueError`.
The braces are written via `Char.ofNat` (123 = left brace, 125 = right
brace). -/
def call_claude_json (parse : List Char → Option JsonVal) (raw0 : List Char) :
    Except (List Char) JsonVal :=
  let raw := stripFences raw0
  match parse raw with
  | some v => .ok v
  | none =>
    match (extractBracketed '[' ']' raw).bind parse with
    | some v => .ok v
    | none =>
      match (extractBracketed (Char.ofNat 123) (Char.ofNat 125) raw).bind parse with
      | some v => .ok v
      | none => .error (parseErrMsg raw)

def isErr {ε α : Type} : Except ε α → Bool
  | .error _ => true
  | .ok _ => false

/-! ## Analysis agents — `app/agents/{entity,sentiment,signal,theme}.py`

Each stage formats a prompt (pure string templating, folded into the model
oracle, which receives the same data the prompt carries) and runs the model
response through `call_claude_json`, catching every exception. -/

/-- `extract_entities` (`app/agents/entity.py`): a parsed list is returned
as-is, any other parsed shape yields `[]`, and any exception (including the
`ValueError` from `call_claude_json`) yields `[]`. -/
def extract_entities (parse : List Char → Option JsonVal)
    (modelO : String → String → List Char) (title content : String) : List JsonVal :=
  match call_claude_json parse (modelO title content) with
  | .ok (.jarr l) => l
  | .ok _ => []
  | .error _ => []

/-- The wrong-shape fallback of `analyze_sentiment`. -/
def sentimentShapeDefault : JsonVal :=
  .jobj [("sentiment", .jstr "neutral"), ("confidence", .jnum (1/2)),
         ("reasoning", .jstr "Unable to determine sentiment")]

/-- The exception fallback of `analyze_sentiment` (`reasoning = f"Error: {e}"`). -/
def sentimentErrDefault (msg : List Char) : JsonVal :=
  .jobj [("sentiment", .jstr "neutral"), ("confidence", .jnum (1/2)),
         ("reasoning", .jstr (String.mk ("Error: ".data ++ msg)))]

/-- `analyze_sentiment` (`app/agents/sentiment.py`). -/
def analyze_sentiment (parse : List Char → Option JsonVal)
    (modelO : String → String → List JsonVal → List Char)
    (title content : String) (entities : List JsonVal) : JsonVal :=
  match call_claude_json parse (modelO title content entities) with
  | .ok (.jobj o) => .jobj o
  | .ok _ => sentimentShapeDefault
  | .error m => sentimentErrDefault m

/-- `generate_signals` (`app/agents/signal.py`): a parsed list is returned
as-is, a parsed dict is wrapped into a one-element list, any other shape or
exception yields `[]`. -/
def generate_signals (parse : List Char → Option JsonVal)
    (modelO : String → String → List JsonVal → JsonVal → List Char)
    (title content : String) (entities : List JsonVal) (sentiment : JsonVal) :
    List JsonVal :=
  match call_claude_json parse (modelO title content entities sentiment) with
  | .ok (.jarr l) => l
  | .ok (.jobj o) => [.jobj o]
  | .ok _ => []
  | .error _ => []

/-- Input record of `detect_themes` (title/summary/source of one article). -/
structure ThemeArticle where
  title : String
  summary : String
  source : String

/-- The `"[Article {i}] ..."` text block of `detect_themes`. -/
def themeArticleText (i : ℕ) (a : ThemeArticle) : String :=
  "[Article " ++ toString i ++ "]\nTitle: " ++ a.title ++ "\nSummary: " ++
    a.summary ++ "\nSource: " ++ a.source

/-- `detect_themes` (`app/agents/theme.py`).  Returns the themes together
with the number of model calls made; the `len(articles) < 2` guard returns
before any prompt is built or any call is issued. -/
def detect_themes (parse : List Char → Option JsonVal)
    (modelO : String → List Char) (articles : List ThemeArticle) :
    List JsonVal × ℕ :=
  if articles.length < 2 then ([], 0)
  else
    let articlesText :=
      String.intercalate "\n\n" (articles.enum.map fun p => themeArticleText p.1 p.2)
    match call_claude_json parse (modelO articlesText) with
    | .ok (.jarr l) => (l, 1)
    | .ok _ => ([], 1)
    | .error _ => ([], 1)

/-! ## AI pipeline — `app/agents/pipeline.py`

`process_article` and `process_unprocessed_articles` are translated with the
three agent stages abstracted as oracles at their result types (the stages
themselves are embedded above; their results are `List JsonVal` / a JSON
dict, exactly the types the oracles produce).  The relational store is a
record of article and signal rows; `utcnow` is the `now` parameter. -/

structure Article where
  id : ℕ
  title : String
  content : String
  summary : String
  processed : Bool
  published_at : Option ℤ
deriving BEq, DecidableEq

structure PSignal where
  article_id : ℕ
  stock_ticker : String
  stock_name : String
  sector : String
  sentiment : String
  confidence : ℚ
  reasoning : String
  direction : String
  impact_hypothesis : String
  time_horizon : String
  insight_type : String
  created_at : ℤ
deriving BEq, DecidableEq

structure PDB where
  articles : List Article
  signals : List PSignal
deriving BEq, DecidableEq

/-- Stage labels traced by the pipeline embedding, recording which agent
calls a run actually made. -/
inductive Stage where
  | entity : Stage
  | sentiment : Stage
  | signalGen : Stage
deriving BEq, DecidableEq

/-- Pipeline environment: the agent-stage oracles, the configured ticker
maps (`settings.tsx_stocks`, `settings.stock_sectors` — configuration loading
is out of scope and passed in), and the clock. -/
structure PipelineEnv where
  entO : String → String → List JsonVal
  sentO : String → String → List JsonVal → JsonVal
  sigO : String → String → List JsonVal → JsonVal → List JsonVal
  tsxStocks : List (String × String)
  stockSectors : List (String × String)
  now : ℤ

/-- `article.summary or article.content or article.title` (Python `or` on
strings picks the first non-empty one). -/
def articleContent (a : Article) : String :=
  if a.summary ≠ "" then a.summary
  else if a.content ≠ "" then a.content
  else a.title

/-- `article.processed = True; db.commit()`: the row with this id is updated
in the store. -/
def markProcessed (id : ℕ) (db : PDB) : PDB :=
  { db with articles := db.articles.map fun b =>
      if b.id = id then { b with processed := true } else b }

/-- The `Signal(...)` row built from one raw signal dict plus the sentiment
dict (`app/agents/pipeline.py`, lines 43-58). -/
def buildSignalRow (env : PipelineEnv) (a : Article) (sentiment : JsonVal)
    (sig : JsonVal) : PSignal :=
  let ticker := jStrD (jGet sig "ticker") ""
  { article_id := a.id
    stock_ticker := ticker
    stock_name := jStrD (jGet sig "company_name") ((env.tsxStocks.lookup ticker).getD "")
    sector := jStrD (jGet sig "sector") ((env.stockSectors.lookup ticker).getD "")
    sentiment := jStrD (jGet sentiment "sentiment") "neutral"
    confidence := jNumD (jGet sig "confidence") (1/2)
    reasoning := jStrD (jGet sentiment "reasoning") ""
    direction := jStrD (jGet sig "direction") ""
    impact_hypothesis := jStrD (jGet sig "impact_hypothesis") ""
    time_horizon := jStrD (jGet sig "time_horizon") "medium"
    insight_type := jStrD (jGet sentiment "insight_type") "Sentiment"
    created_at := env.now }

/-- `process_article` (`app/agents/pipeline.py`): entity extraction first;
with zero entities the article is marked processed, the transaction commits
and the run stops; otherwise sentiment and signal generation run, the signal
rows are added and the article is marked processed.  The returned trace lists
the stages invoked. -/
def process_article (env : PipelineEnv) (a : Article) (db : PDB) :
    List PSignal × PDB × List Stage :=
  let content := articleContent a
  let entities := env.entO a.title content
  if entities.isEmpty then
    ([], markProcessed a.id db, [Stage.entity])
  else
    let sentiment := env.sentO a.title content entities
    let rawSignals := env.sigO a.title content entities sentiment
    let rows := rawSignals.map (buildSignalRow env a sentiment)
    let db1 := { db with signals := db.signals ++ rows }
    (rows, markProcessed a.id db1, [Stage.entity, Stage.sentiment, Stage.signalGen])

/-- Insertion sort on the `published_at` key, descending — the
`ORDER BY published_at DESC` of the selection query.  The backend collation
of NULL dates is irrelevant to the claims; NULL is collated as 0 here. -/
def pubKey (a : Article) : ℤ := a.published_at.getD 0

def insertDesc (a : Article) : List Article → List Article
  | [] => [a]
  | b :: rest => if pubKey b ≤ pubKey a then a :: b :: rest else b :: insertDesc a rest

def sortByPublishedDesc : List Article → List Article
  | [] => []
  | a :: rest => insertDesc a (sortByPublishedDesc rest)

/-- The batch selected by `process_unprocessed_articles`: unprocessed rows,
newest first, up to `limit`. -/
def selectUnprocessed (db : PDB) (limit : ℕ) : List Article :=
  (sortByPublishedDesc (db.articles.filter fun a => a.processed = false)).take limit

/-- The per-article loop of `process_unprocessed_articles`, with the
`try/except` around `process_article`: `failO a = true` models an exception
escaping `process_article` for that article, upon which the handler sets
`processed = True` and commits.  Returns the signal total and the store. -/
def processLoop (env : PipelineEnv) (failO : Article → Bool) :
    List Article → PDB → ℕ → ℕ × PDB
  | [], db, total => (total, db)
  | a :: rest, db, total =>
    if failO a then
      processLoop env failO rest (markProcessed a.id db) total
    else
      processLoop env failO rest (process_article env a db).2.1
        (total + (process_article env a db).1.length)

/-- `process_unprocessed_articles` (`app/agents/pipeline.py`): select the
unprocessed batch, run each through `process_article`, marking even failing
articles processed; returns `(articles_processed, signals_generated)` and the
final store. -/
def process_unprocessed_articles (env : PipelineEnv) (failO : Article → Bool)
    (db : PDB) (limit : ℕ) : (ℕ × ℕ) × PDB :=
  (((selectUnprocessed db limit).length,
      (processLoop env failO (selectUnprocessed db limit) db 0).1),
    (processLoop env failO (selectUnprocessed db limit) db 0).2)

/-! ## Backtest engine — `app/services/backtest.py`

Dates are modelled as day numbers (`ℤ`): the source keys its price dict by
`strftime("%Y-%m-%d")` strings and shifts dates with `timedelta(days=n)`, so
in UTC a date is exactly its day number and the shift is integer addition.
Prices are `ℚ`; `get_stock_prices` (yfinance) is the oracle
`priceO : ticker → start → end → assoc list (date ↦ close)`. -/

structure Signal where
  id : ℕ
  stock_ticker : String
  direction : Option String
  created_at : Option ℤ
deriving BEq, DecidableEq

structure BacktestResult where
  signal_id : ℕ
  ticker : String
  signal_date : ℤ
  direction_predicted : String
  price_at_signal : ℚ
  price_1d : Option ℚ
  price_7d : Option ℚ
  price_30d : Option ℚ
  actual_1d_change : Option ℚ
  actual_7d_change : Option ℚ
  actual_30d_change : Option ℚ
  accurate_1d : Option Bool
  accurate_7d : Option Bool
  accurate_30d : Option Bool
deriving BEq, DecidableEq

/-- The hard-coded inner direction list of `find_nearest_price`
(`[0, 1, -1, 2, -2, 3, -3, 4, -4, 5, -5]`). -/
def nearDirections : List ℤ := [0, 1, -1, 2, -2, 3, -3, 4, -4, 5, -5]

/-- Python dict membership + access `prices[check_date]` on the date-keyed
series. -/
def priceAt (prices : List (ℤ × ℚ)) (d : ℤ) : Option ℚ :=
  List.lookup d prices

/-- `find_nearest_price` (`app/services/backtest.py`, lines 29-39), exactly
as written: for each `offset` in `0..max_days_offset`, probe
`target + (direction + offset)` over the fixed direction list, then probe
`target + offset`; return the first hit. -/
def find_nearest_price (prices : List (ℤ × ℚ)) (target : ℤ)
    (max_days_offset : ℕ := 5) : Option ℚ :=
  (List.range (max_days_offset + 1)).findSome? fun o =>
    let offset : ℤ := o
    match nearDirections.findSome? (fun d => priceAt prices (target + (d + offset))) with
    | some p => some p
    | none => priceAt prices (target + offset)

/-- Python `round(x, 2)`.  Modelled over `ℚ` as rounding to the nearest
hundredth; the tie-breaking direction of Python's float `round` (half to
even, on binary floats) differs from Mathlib's `round` only at exact
half-cent ties, which no theorem below touches. -/
def round2 (q : ℚ) : ℚ := (round (q * 100) : ℚ) / 100

/-- Python `str.lower()` restricted to ASCII (the directions stored by the
pipeline are ASCII). -/
def lowerAscii (c : Char) : Char :=
  if 'A' ≤ c ∧ c ≤ 'Z' then Char.ofNat (c.toNat + 32) else c

def pyLower (s : String) : String := String.mk (s.data.map lowerAscii)

/-- Python truthiness of an optional price (`if price_1d`): false for `None`
and for a price equal to `0.0`. -/
def priceTruthy (p : Option ℚ) : Bool :=
  match p with
  | none => false
  | some q => q ≠ 0

/-- `change = ((p - p0) / p0 * 100) if p else None`. -/
def pctChange (p0 : ℚ) (p : Option ℚ) : Option ℚ :=
  match p with
  | none => none
  | some q => if q = 0 then none else some ((q - p0) / p0 * 100)

/-- `accurate = (change > 0) == predicted_up if change is not None else None`. -/
def accFlag (change : Option ℚ) (predictedUp : Bool) : Option Bool :=
  match change with
  | none => none
  | some c => some (decide (0 < c) == predictedUp)

/-- `round(x, 2) if x is not None else None` (also used for the
`round(p, 2) if p else None` price fields, via `priceTruthy`). -/
def roundOpt (change : Option ℚ) : Option ℚ := change.map round2

def roundPriceOpt (p : Option ℚ) : Option ℚ :=
  if priceTruthy p then p.map round2 else none

/-- `backtest_signal` (`app/services/backtest.py`, lines 42-97).  Returns
`none` where the source returns `None` — and also where the source raises:
when the signal-date price is exactly `0` and some horizon price is truthy,
the percentage-change expression raises `ZeroDivisionError`, which the only
persisting caller (`run_backtest_for_unvalidated`) catches, so no row is
created on that path either. -/
def backtest_signal (priceO : String → ℤ → ℤ → List (ℤ × ℚ)) (now : ℤ)
    (s : Signal) : Option BacktestResult :=
  let signal_date := s.created_at.getD now
  let ticker := s.stock_ticker
  if ticker = "" ∨ s.direction = none ∨ s.direction = some "" then none
  else
    let prices := priceO ticker (signal_date - 5) (signal_date + 35)
    if prices = [] then none
    else
      match find_nearest_price prices signal_date 5 with
      | none => none
      | some p0 =>
        let price_1d := find_nearest_price prices (signal_date + 1) 5
        let price_7d := find_nearest_price prices (signal_date + 7) 5
        let price_30d := find_nearest_price prices (signal_date + 30) 5
        if p0 = 0 ∧ (priceTruthy price_1d ∨ priceTruthy price_7d ∨ priceTruthy price_30d) then
          none
        else
          let change_1d := pctChange p0 price_1d
          let change_7d := pctChange p0 price_7d
          let change_30d := pctChange p0 price_30d
          let dirStr := (s.direction.getD "")
          let predicted_up := pyLower dirStr = "up"
          some
            { signal_id := s.id
              ticker := ticker
              signal_date := signal_date
              direction_predicted := dirStr
              price_at_signal := round2 p0
              price_1d := roundPriceOpt price_1d
              price_7d := roundPriceOpt price_7d
              price_30d := roundPriceOpt price_30d
              actual_1d_change := roundOpt change_1d
              actual_7d_change := roundOpt change_7d
              actual_30d_change := roundOpt change_30d
              accurate_1d := accFlag change_1d predicted_up
              accurate_7d := accFlag change_7d predicted_up
              accurate_30d := accFlag change_30d predicted_up }

structure BtStore where
  signals : List Signal
  results : List BacktestResult
deriving BEq, DecidableEq

/-- The untested set computed at the top of `run_backtest_for_unvalidated`:
signals whose id carries no backtest result yet and whose direction is not
NULL (`Signal.direction.isnot(None)` — the SQL filter keeps empty-string
directions). -/
def untested_signals (store : BtStore) : List Signal :=
  let tested := store.results.map (·.signal_id)
  store.signals.filter fun s => decide (s.id ∉ tested) && decide (s.direction ≠ none)

/-- The per-signal loop of `run_backtest_for_unvalidated`: each successful
`backtest_signal` appends its row (`db.add`/`db.commit` happen inside
`backtest_signal`) and bumps `results_created`; exceptions are caught and
skip the signal (already folded into `backtest_signal = none`). -/
def btLoop (priceO : String → ℤ → ℤ → List (ℤ × ℚ)) (now : ℤ) :
    List Signal → List BacktestResult → ℕ → ℕ × List BacktestResult
  | [], acc, n => (n, acc)
  | s :: rest, acc, n =>
    match backtest_signal priceO now s with
    | some r => btLoop priceO now rest (acc ++ [r]) (n + 1)
    | none => btLoop priceO now rest acc n

/-- `run_backtest_for_unvalidated` (`app/services/backtest.py`, lines
100-121): returns `(signals_tested, results_created)` and the store. -/
def run_backtest_for_unvalidated (priceO : String → ℤ → ℤ → List (ℤ × ℚ))
    (now : ℤ) (store : BtStore) : (ℕ × ℕ) × BtStore :=
  (((untested_signals store).length,
      (btLoop priceO now (untested_signals store) store.results 0).1),
    { store with results := (btLoop priceO now (untested_signals store) store.results 0).2 })

/-! ## Ingestion — `app/services/ingestion.py`,
`app/services/scrapers/news_scrapers.py`, `app/services/ingestion_orchestrator.py`

The store is abstracted to its deduplication view: the list of stored
`url_hash` values (the only column the dedup logic reads, and inserting a row
adds exactly one hash under the table's uniqueness constraint).  `hashUrl` is
the SHA-256 digest, an external deterministic function.  Upstream content is
fixed: a feed is its list of entry URLs (empty string = missing `link`), and
a web source is its list of candidate article URLs that pass the structural
filters and extract successfully — both identical across the two runs the
idempotence claim compares. -/

/-- `ingest_feed` (`app/services/ingestion.py`): per entry, skip empty links,
skip when a row with the URL's hash exists, otherwise add the article.
Pending rows are visible to the later queries of the same run (session
autoflush), so the store view is threaded through.  Returns the new articles
(as their URLs) and the store. -/
def ingest_feed (hashUrl : String → String) :
    List String → List String → List String × List String
  | [], db => ([], db)
  | url :: rest, db =>
    if url = "" then ingest_feed hashUrl rest db
    else if hashUrl url ∈ db then ingest_feed hashUrl rest db
    else
      (url :: (ingest_feed hashUrl rest (db ++ [hashUrl url])).1,
        (ingest_feed hashUrl rest (db ++ [hashUrl url])).2)

/-- `ingest_all_feeds`: every configured feed in turn; returns the total of
new articles (the per-source count dict summed) and the store. -/
def ingest_all_feeds (hashUrl : String → String) :
    List (List String) → List String → ℕ × List String
  | [], db => (0, db)
  | feed :: rest, db =>
    ((ingest_feed hashUrl feed db).1.length
        + (ingest_all_feeds hashUrl rest (ingest_feed hashUrl feed db).2).1,
      (ingest_all_feeds hashUrl rest (ingest_feed hashUrl feed db).2).2)

/-- The scrape loop shared by the news scrapers
(`news_scrapers.py`): stop once `limit` articles are collected; skip URLs
already in the in-run seen set; `_deduplicate_url` then records the URL as
seen and skips it when its hash is already stored.  Returns the scraped
URLs, in order. -/
def scrapeLoop (hashUrl : String → String) (db : List String) (limit : ℕ) :
    List String → List String → List String → List String
  | [], _, acc => acc
  | url :: rest, seen, acc =>
    if limit ≤ acc.length then acc
    else if url ∈ seen then scrapeLoop hashUrl db limit rest seen acc
    else if hashUrl url ∈ db then scrapeLoop hashUrl db limit rest (seen ++ [url]) acc
    else scrapeLoop hashUrl db limit rest (seen ++ [url]) (acc ++ [url])

/-- One scraper's `scrape(limit, db)`: fresh seen set, empty accumulator. -/
def scrapeSource (hashUrl : String → String) (candidates : List String)
    (limit : ℕ) (db : List String) : List String :=
  scrapeLoop hashUrl db limit candidates [] []

/-- The per-article persist loop of `IngestionOrchestrator.ingest_all_news`:
`db.add(article); db.commit()` with the duplicate-key failure rolled back and
swallowed.  Returns the number of successful commits and the store. -/
def insertArticles (hashUrl : String → String) :
    List String → List String → ℕ × List String
  | [], db => (0, db)
  | url :: rest, db =>
    if hashUrl url ∈ db then insertArticles hashUrl rest db
    else
      ((insertArticles hashUrl rest (db ++ [hashUrl url])).1 + 1,
        (insertArticles hashUrl rest (db ++ [hashUrl url])).2)

/-- `IngestionOrchestrator.ingest_all_news`: every news scraper in turn,
persisting each scraped article individually. -/
def ingest_all_news (hashUrl : String → String) (limit : ℕ) :
    List (List String) → List String → ℕ × List String
  | [], db => (0, db)
  | source :: rest, db =>
    ((insertArticles hashUrl (scrapeSource hashUrl source limit db) db).1
        + (ingest_all_news hashUrl limit rest
            (insertArticles hashUrl (scrapeSource hashUrl source limit db) db).2).1,
      (ingest_all_news hashUrl limit rest
          (insertArticles hashUrl (scrapeSource hashUrl source limit db) db).2).2)

/-- One full news-ingestion pass as the scheduler runs it: RSS feeds, then
the web scrapers. -/
def ingestion_run (hashUrl : String → String) (feeds : List (List String))
    (sources : List (List String)) (limit : ℕ) (db : List String) :
    ℕ × List String :=
  ((ingest_all_feeds hashUrl feeds db).1
      + (ingest_all_news hashUrl limit sources (ingest_all_feeds hashUrl feeds db).2).1,
    (ingest_all_news hashUrl limit sources (ingest_all_feeds hashUrl feeds db).2).2)

/-! ## Fetch client — `app/services/scrapers/base.py`, `_make_request`

The network is the oracle `resp : attempt index → outcome`.  The function
returns the status code of the returned response (or `none` when every
attempt failed / a permanent error occurred) together with the list of sleep
durations performed, in order (rate-limit pacing sleeps are not part of the
retry logic and are not traced). -/

inductive FetchOutcome where
  | status : ℕ → Option ℕ → FetchOutcome
  | timeout : FetchOutcome
  | connError : FetchOutcome
deriving BEq, DecidableEq

/-- The `for attempt in range(self.max_retries)` loop of `_make_request`,
with `remaining` the attempts left.  On 429: sleep `Retry-After` (default
60) and `continue`.  `raise_for_status` raises for 4xx/5xx; 403/404 return
`None` immediately; other HTTP errors, timeouts and connection errors back
off `2 ** attempt` seconds — but only while `attempt < max_retries - 1` —
and `continue`. -/
def make_request_loop (maxRetries : ℕ) (resp : ℕ → FetchOutcome) :
    ℕ → ℕ → Option ℕ × List ℕ
  | _, 0 => (none, [])
  | attempt, remaining + 1 =>
    match resp attempt with
    | .status code retryAfter =>
      if code = 429 then
        let (r, t) := make_request_loop maxRetries resp (attempt + 1) remaining
        (r, retryAfter.getD 60 :: t)
      else if 400 ≤ code ∧ code < 600 then
        if code = 403 ∨ code = 404 then (none, [])
        else
          let (r, t) := make_request_loop maxRetries resp (attempt + 1) remaining
          (r, (if attempt + 1 < maxRetries then [2 ^ attempt] else []) ++ t)
      else (some code, [])
    | .timeout =>
      let (r, t) := make_request_loop maxRetries resp (attempt + 1) remaining
      (r, (if attempt + 1 < maxRetries then [2 ^ attempt] else []) ++ t)
    | .connError =>
      let (r, t) := make_request_loop maxRetries resp (attempt + 1) remaining
      (r, (if attempt + 1 < maxRetries then [2 ^ attempt] else []) ++ t)

/-- `BaseScraper._make_request` (`app/services/scrapers/base.py`, lines
58-118). -/
def make_request (maxRetries : ℕ) (resp : ℕ → FetchOutcome) : Option ℕ × List ℕ :=
  make_request_loop maxRetries resp 0 maxRetries

/-! ## Scheduler — `app/services/scheduler.py`, `scheduled_ingestion`

The combined cycle is translated at its own level of abstraction: each step
is one of the component entry points above, abstracted to a state
transformer so the control flow of `scheduled_ingestion` — which is what the
sequencing claim is about — stands alone.  A step returning `none` models an
exception escaping it; the web-scrape and sentiment steps have their own
`try/except` (a failure is logged and the cycle continues), while a pipeline
or backtest failure falls through to the outer handler and ends the cycle. -/

inductive SchedStep where
  | rss : SchedStep
  | webScrape : SchedStep
  | pipeline : SchedStep
  | backtest : SchedStep
  | sentimentScrape : SchedStep
deriving BEq, DecidableEq

/-- `scheduled_ingestion` (`app/services/scheduler.py`, lines 28-78):
RSS ingest, web-scrape ingest, then — only when `total_new > 0` — the AI
pipeline and the back-tests, and finally the sentiment scrape, which is
outside the `total_new` guard and runs in both branches.  Returns the final
state and the trace of steps entered. -/
def scheduled_ingestion {σ : Type} (stepRss : σ → ℕ × σ)
    (stepWeb : σ → Option ℕ × σ) (stepPipe : σ → Option (ℕ × ℕ) × σ)
    (stepBt : σ → Option (ℕ × ℕ) × σ) (stepSent : σ → Option ℕ × σ)
    (db : σ) : σ × List SchedStep :=
  let db1 := (stepRss db).2
  let db2 := (stepWeb db1).2
  let totalNew := (stepRss db).1 + (stepWeb db1).1.getD 0
  if 0 < totalNew then
    match (stepPipe db2).1 with
    | none => ((stepPipe db2).2, [.rss, .webScrape, .pipeline])
    | some _ =>
      let db3 := (stepPipe db2).2
      match (stepBt db3).1 with
      | none => ((stepBt db3).2, [.rss, .webScrape, .pipeline, .backtest])
      | some _ =>
        ((stepSent (stepBt db3).2).2,
          [.rss, .webScrape, .pipeline, .backtest, .sentimentScrape])
  else ((stepSent db2).2, [.rss, .webScrape, .sentimentScrape])

/-! ## Shape helpers and concrete instances used by the theorems below -/

def jIsArr : JsonVal → Bool
  | .jarr _ => true
  | _ => false

def jIsObj : JsonVal → Bool
  | .jobj _ => true
  | _ => false

/-- A signal whose stored direction is upper-case: the pipeline persists the
model's direction string verbatim, while `backtest_signal` lower-cases it
before comparing with "up". -/
def c1Signal : Signal :=
  { id := 1, stock_ticker := "X", direction := some "UP", created_at := some 0 }

/-- A two-day price series: signal-date close 100, next-day close 200. -/
def c1Prices : List (ℤ × ℚ) := [(0, 100), (1, 200)]

def c1Oracle : String → ℤ → ℤ → List (ℤ × ℚ) := fun _ _ _ => c1Prices

/-- The row `backtest_signal` persists for `c1Signal` against `c1Prices`. -/
def c1Result : BacktestResult :=
  { signal_id := 1, ticker := "X", signal_date := 0, direction_predicted := "UP",
    price_at_signal := 100, price_1d := some 200, price_7d := none, price_30d := none,
    actual_1d_change := some 100, actual_7d_change := none, actual_30d_change := none,
    accurate_1d := some true, accurate_7d := none, accurate_30d := none }

/-- A model response consisting of the two-character text `{}` (an empty
JSON object). -/
def c5raw : List Char := [Char.ofNat 123, Char.ofNat 125]

/-- A `json.loads` fragment sufficient for the inputs exercised below: it
parses the exact text `{}` to the empty object and fails on everything
else (as `json.loads` itself does on these inputs). -/
def c5parse : List Char → Option JsonVal :=
  fun l => if l = c5raw then some (.jobj []) else none

/-- Attempt outcomes: three 429 responses, then a 200. -/
def c7resp : ℕ → FetchOutcome :=
  fun i => if i < 3 then .status 429 none else .status 200 none

/-- Attempt outcomes: every attempt is a 429 carrying `Retry-After: 7`. -/
def c7resp429 : ℕ → FetchOutcome := fun _ => .status 429 (some 7)

/-- A pipeline environment whose entity stage finds nothing. -/
def envNoEntities : PipelineEnv :=
  { entO := fun _ _ => [], sentO := fun _ _ _ => .jnull, sigO := fun _ _ _ _ => [],
    tsxStocks := [], stockSectors := [], now := 0 }

def art0 : Article :=
  { id := 1, title := "t", content := "c", summary := "s", processed := false,
    published_at := none }

def pdb0 : PDB := { articles := [art0], signals := [] }

/-! ## Theorems -/

/-- C2 — the nearest-price lookup escapes its offset window: on a series
whose only entry lies 6 days after the target (outside
`[target - 5, target + 5]`), `find_nearest_price` with `max_days_offset = 5`
returns that entry's price instead of the `null` the specification requires
(the loop probes `target + (direction + offset)`, reaching offsets up to
`2 * max_days_offset`). -/
theorem find_nearest_price_escapes_window :
    find_nearest_price [((6 : ℤ), (1 : ℚ))] 0 5 = some 1 ∧
      ¬((0 : ℤ) - 5 ≤ 6 ∧ (6 : ℤ) ≤ 0 + 5) := by
  decide

/-- C9 — `detect_themes` on fewer than 2 articles returns zero themes and
makes no model call. -/
theorem detect_themes_guard (parse : List Char → Option JsonVal)
    (modelO : String → List Char) (articles : List ThemeArticle)
    (h : articles.length < 2) : detect_themes parse modelO articles = ([], 0) := by
  simp [detect_themes, h]

/-- Witness for C9 at the empty batch. -/
theorem detect_themes_guard_witness :
    detect_themes (fun _ => none) (fun _ => []) [] = ([], 0) :=
  detect_themes_guard (fun _ => none) (fun _ => []) [] (by decide)

/-- C8 — an article whose entity extraction comes back empty is marked
processed, yields no signal row, and the sentiment/signal stages are never
invoked. -/
theorem process_article_no_entities (env : PipelineEnv) (a : Article) (db : PDB)
    (h : env.entO a.title (articleContent a) = []) :
    process_article env a db = ([], markProcessed a.id db, [Stage.entity])
    ∧ (process_article env a db).2.1.signals = db.signals
    ∧ (∀ b ∈ (process_article env a db).2.1.articles, b.id = a.id → b.processed = true)
    ∧ Stage.sentiment ∉ (process_article env a db).2.2
    ∧ Stage.signalGen ∉ (process_article env a db).2.2 := by
  have h1 : process_article env a db = ([], markProcessed a.id db, [Stage.entity]) := by
    simp [process_article, h]
  refine ⟨h1, ?_, ?_, ?_, ?_⟩ <;> rw [h1]
  · simp [markProcessed]
  · intro b hb hid
    simp only [markProcessed, List.mem_map] at hb
    obtain ⟨c, hc, hcb⟩ := hb
    by_cases hca : c.id = a.id
    · rw [← hcb]
      simp [hca]
    · rw [if_neg hca] at hcb
      exact absurd (hcb ▸ hid) hca
  · simp
  · simp

/-- Witness for C8: a concrete store whose single article links no
entities. -/
theorem process_article_no_entities_witness :
    process_article envNoEntities art0 pdb0 =
      ([], markProcessed art0.id pdb0, [Stage.entity]) :=
  (process_article_no_entities envNoEntities art0 pdb0 rfl).1

/-- The all-429 run of the request loop: every probed attempt consumes one
unit of the remaining budget and records its Retry-After sleep. -/
theorem make_request_loop_429 (M : ℕ) (resp : ℕ → FetchOutcome) (ra : ℕ → Option ℕ) :
    ∀ (rem attempt : ℕ),
      (∀ i, attempt ≤ i → i < attempt + rem → resp i = .status 429 (ra i)) →
      make_request_loop M resp attempt rem =
        (none, (List.range rem).map fun j => (ra (attempt + j)).getD 60) := by
  intro rem
  induction rem with
  | zero => intro attempt _; rfl
  | succ n ih =>
    intro attempt h
    have h0 : resp attempt = .status 429 (ra attempt) :=
      h attempt le_rfl (by omega)
    have hrec := ih (attempt + 1) (fun i h1 h2 => h i (by omega) (by omega))
    simp only [make_request_loop, h0, if_pos rfl, hrec]
    have hmap : (List.range (n + 1)).map (fun j => (ra (attempt + j)).getD 60) =
        (ra attempt).getD 60 ::
          (List.range n).map (fun j => (ra (attempt + 1 + j)).getD 60) := by
      rw [List.range_succ_eq_map, List.map_cons, List.map_map]
      refine congrArg₂ List.cons (by simp) ?_
      refine List.map_congr_left fun j _ => ?_
      simp only [Function.comp_apply]
      congr 2
      omega
    rw [hmap]
    simp

/-- C7 (amended) — on a 429 the client sleeps the Retry-After hint (default
60 seconds) and retries, but the retry consumes one attempt of the
`max_retries` budget: the continuation runs with one fewer remaining
attempt, and a run of `max_retries` consecutive 429 responses exhausts the
budget and fails, sleeping once per response. -/
theorem retry_429_consumes_budget_amended :
    (∀ (m : ℕ) (resp : ℕ → FetchOutcome) (ra : Option ℕ), 0 < m →
        resp 0 = .status 429 ra →
        make_request m resp =
          ((make_request_loop m resp 1 (m - 1)).1,
            ra.getD 60 :: (make_request_loop m resp 1 (m - 1)).2))
    ∧ (∀ (m : ℕ) (resp : ℕ → FetchOutcome) (ra : ℕ → Option ℕ),
        (∀ i, i < m → resp i = .status 429 (ra i)) →
        make_request m resp = (none, (List.range m).map fun i => (ra i).getD 60)) := by
  constructor
  · intro m resp ra hm h
    obtain ⟨n, rfl⟩ : ∃ n, m = n + 1 := ⟨m - 1, by omega⟩
    simp [make_request, make_request_loop, h]
  · intro m resp ra h
    have := make_request_loop_429 m resp ra m 0 (fun i h1 h2 => h i (by omega))
    simpa [make_request] using this

/-- C7 (counterexample to the claim as stated) — with `max_retries = 3` and
three 429 responses followed by a 200, the client returns failure after
sleeping three times: the 429-triggered retries used up the whole budget, so
the 200 at attempt index 3 is never requested, contradicting "does not count
against the retry budget". -/
theorem retry_429_counterexample :
    make_request 3 c7resp = (none, [60, 60, 60]) ∧ c7resp 3 = .status 200 none := by
  decide

/-- Witness for C7 (amended) at concrete inputs: two all-429 attempts with
`Retry-After: 7`, and a single-attempt budget consumed by one 429. -/
theorem retry_429_witness :
    make_request 2 c7resp429 = (none, [7, 7]) ∧ make_request 1 c7resp429 = (none, [7]) := by
  have hb := retry_429_consumes_budget_amended.2 2 c7resp429 (fun _ => some 7)
    (fun _ _ => rfl)
  have ha := retry_429_consumes_budget_amended.1 1 c7resp429 (some 7) (by decide) rfl
  constructor
  · simpa using hb
  · simpa [make_request_loop] using ha

/-- C6 (counterexample to the claim as stated) — a cycle in which both
ingestion steps produce zero new items still executes the sentiment scrape:
the trace is RSS, web scrape, sentiment scrape, so the sentiment step is not
"skipped entirely when the preceding step produced nothing". -/
theorem scheduler_sentiment_counterexample :
    (scheduled_ingestion (fun _ : Unit => (0, ())) (fun _ => (some 0, ()))
        (fun _ => (some (0, 0), ())) (fun _ => (some (0, 0), ())) (fun _ => (some 0, ())) ()).2 =
      [SchedStep.rss, SchedStep.webScrape, SchedStep.sentimentScrape]
    ∧ SchedStep.sentimentScrape ∈
        (scheduled_ingestion (fun _ : Unit => (0, ())) (fun _ => (some 0, ()))
          (fun _ => (some (0, 0), ())) (fun _ => (some (0, 0), ())) (fun _ => (some 0, ())) ()).2 := by
  have h : (scheduled_ingestion (fun _ : Unit => (0, ())) (fun _ => (some 0, ()))
      (fun _ => (some (0, 0), ())) (fun _ => (some (0, 0), ())) (fun _ => (some 0, ())) ()).2 =
      [SchedStep.rss, SchedStep.webScrape, SchedStep.sentimentScrape] := by decide
  exact ⟨h, by rw [h]; simp⟩

/-- C6 (amended) — the combined cycle runs RSS ingest, then the web scrape,
and enters the analysis pipeline exactly when the two ingestion steps
produced at least one new item; the back-test is gated on that same
ingestion count (not on the pipeline's output) and runs whenever the
pipeline returned; the sentiment scrape is not gated on ingestion at all —
it runs when ingestion produced nothing, and is omitted only when the
pipeline or the back-test raises; the five steps always appear in the fixed
order. -/
theorem scheduler_sequencing_amended {σ : Type} (stepRss : σ → ℕ × σ)
    (stepWeb : σ → Option ℕ × σ) (stepPipe stepBt : σ → Option (ℕ × ℕ) × σ)
    (stepSent : σ → Option ℕ × σ) (db : σ) :
    SchedStep.rss ∈ (scheduled_ingestion stepRss stepWeb stepPipe stepBt stepSent db).2
    ∧ SchedStep.webScrape ∈ (scheduled_ingestion stepRss stepWeb stepPipe stepBt stepSent db).2
    ∧ (SchedStep.pipeline ∈ (scheduled_ingestion stepRss stepWeb stepPipe stepBt stepSent db).2 ↔
        0 < (stepRss db).1 + ((stepWeb (stepRss db).2).1.getD 0))
    ∧ (SchedStep.backtest ∈ (scheduled_ingestion stepRss stepWeb stepPipe stepBt stepSent db).2 ↔
        (0 < (stepRss db).1 + ((stepWeb (stepRss db).2).1.getD 0)
          ∧ (stepPipe ((stepWeb (stepRss db).2).2)).1 ≠ none))
    ∧ (SchedStep.sentimentScrape ∈
          (scheduled_ingestion stepRss stepWeb stepPipe stepBt stepSent db).2 ↔
        ((stepRss db).1 + ((stepWeb (stepRss db).2).1.getD 0) = 0
          ∨ ((stepPipe ((stepWeb (stepRss db).2).2)).1 ≠ none
              ∧ (stepBt ((stepPipe ((stepWeb (stepRss db).2).2)).2)).1 ≠ none)))
    ∧ ((scheduled_ingestion stepRss stepWeb stepPipe stepBt stepSent db).2 =
          [.rss, .webScrape, .sentimentScrape]
        ∨ (scheduled_ingestion stepRss stepWeb stepPipe stepBt stepSent db).2 =
          [.rss, .webScrape, .pipeline]
        ∨ (scheduled_ingestion stepRss stepWeb stepPipe stepBt stepSent db).2 =
          [.rss, .webScrape, .pipeline, .backtest]
        ∨ (scheduled_ingestion stepRss stepWeb stepPipe stepBt stepSent db).2 =
          [.rss, .webScrape, .pipeline, .backtest, .sentimentScrape]) := by
  by_cases h : 0 < (stepRss db).1 + ((stepWeb (stepRss db).2).1.getD 0)
  · rcases hp : (stepPipe ((stepWeb (stepRss db).2).2)).1 with _ | v
    · simp [scheduled_ingestion, h, hp]
      omega
    · rcases hb : (stepBt ((stepPipe ((stepWeb (stepRss db).2).2)).2)).1 with _ | w
      · simp [scheduled_ingestion, h, hp, hb]
        omega
      · simp [scheduled_ingestion, h, hp, hb]
  · simp [scheduled_ingestion, h]
    omega

/-- C5 (counterexample to the claim as stated) — a well-formed model
response consisting of the JSON object `{}` parses successfully but has the
wrong shape for signal generation (a list is expected); `generate_signals`
returns the object wrapped in a one-element list instead of the empty list
the claim prescribes. -/
theorem signal_wrap_counterexample :
    generate_signals c5parse (fun _ _ _ _ => c5raw) "" "" [] .jnull = [.jobj []]
    ∧ call_claude_json c5parse c5raw = .ok (.jobj [])
    ∧ jIsArr (.jobj []) = false := by
  exact ⟨rfl, rfl, rfl⟩

/-- C5 (amended) — for every model response: when the whole parse chain of
`call_claude_json` fails, entity extraction returns `[]`, sentiment analysis
returns its neutral default (`sentiment = "neutral"`, `confidence = 0.5`)
and signal generation returns `[]`; when the chain parses a value of the
wrong shape, entity extraction returns `[]` for any non-list, sentiment
analysis returns its neutral default for any non-object, and signal
generation returns `[]` for any non-list value except an object, which it
wraps into a one-element list; no stage propagates an exception (each stage
is a total function of the response, with the error branch of
`call_claude_json` handled inside it). -/
theorem claude_stage_defaults_amended (parse : List Char → Option JsonVal)
    (raw : List Char) (t c : String) (ents : List JsonVal) (sent : JsonVal) :
    (isErr (call_claude_json parse raw) = true →
      extract_entities parse (fun _ _ => raw) t c = []
      ∧ jGet (analyze_sentiment parse (fun _ _ _ => raw) t c ents) "sentiment" =
          some (.jstr "neutral")
      ∧ jGet (analyze_sentiment parse (fun _ _ _ => raw) t c ents) "confidence" =
          some (.jnum (1/2))
      ∧ generate_signals parse (fun _ _ _ _ => raw) t c ents sent = [])
    ∧ (∀ v, call_claude_json parse raw = .ok v → jIsArr v = false →
        extract_entities parse (fun _ _ => raw) t c = [])
    ∧ (∀ v, call_claude_json parse raw = .ok v → jIsObj v = false →
        jGet (analyze_sentiment parse (fun _ _ _ => raw) t c ents) "sentiment" =
            some (.jstr "neutral")
        ∧ jGet (analyze_sentiment parse (fun _ _ _ => raw) t c ents) "confidence" =
            some (.jnum (1/2)))
    ∧ (∀ v, call_claude_json parse raw = .ok v → jIsArr v = false → jIsObj v = false →
        generate_signals parse (fun _ _ _ _ => raw) t c ents sent = [])
    ∧ (∀ o, call_claude_json parse raw = .ok (.jobj o) →
        generate_signals parse (fun _ _ _ _ => raw) t c ents sent = [.jobj o]) := by
  have hshape : jGet sentimentShapeDefault "sentiment" = some (.jstr "neutral")
      ∧ jGet sentimentShapeDefault "confidence" = some (.jnum (1/2)) := ⟨rfl, rfl⟩
  have herr : ∀ m, jGet (sentimentErrDefault m) "sentiment" = some (.jstr "neutral")
      ∧ jGet (sentimentErrDefault m) "confidence" = some (.jnum (1/2)) :=
    fun m => ⟨rfl, rfl⟩
  rcases hcc : call_claude_json parse raw with m | v
  · refine ⟨fun _ => ?_, ?_, ?_, ?_, ?_⟩
    · exact ⟨by simp [extract_entities, hcc],
        by simp only [analyze_sentiment, hcc]; exact (herr m).1,
        by simp only [analyze_sentiment, hcc]; exact (herr m).2,
        by simp [generate_signals, hcc]⟩
    all_goals intro v hv
    all_goals simp_all
  · refine ⟨fun hisErr => ?_, ?_, ?_, ?_, ?_⟩
    · exact absurd hisErr (by simp [isErr])
    · intro w hw harr
      obtain rfl : v = w := by injection hw
      cases v <;> simp_all [extract_entities, hcc, jIsArr]
    · intro w hw hobj
      obtain rfl : v = w := by injection hw
      cases v <;>
        simp_all [analyze_sentiment, hcc, jIsObj, hshape.1, hshape.2]
    · intro w hw harr hobj
      obtain rfl : v = w := by injection hw
      cases v <;> simp_all [generate_signals, hcc, jIsArr, jIsObj]
    · intro o ho
      obtain rfl : v = .jobj o := by injection ho
      simp [generate_signals, hcc]

/-- Witness for C5 (amended): the total-failure clause at a parser that
rejects everything, and the object-wrapping clause at the `{}` response. -/
theorem claude_stage_defaults_witness :
    (extract_entities (fun _ => none) (fun _ _ => ['x']) "" "" = []
      ∧ jGet (analyze_sentiment (fun _ => none) (fun _ _ _ => ['x']) "" "" []) "sentiment" =
          some (.jstr "neutral")
      ∧ jGet (analyze_sentiment (fun _ => none) (fun _ _ _ => ['x']) "" "" []) "confidence" =
          some (.jnum (1/2))
      ∧ generate_signals (fun _ => none) (fun _ _ _ _ => ['x']) "" "" [] .jnull = [])
    ∧ generate_signals c5parse (fun _ _ _ _ => c5raw) "" "" [] .jnull = [.jobj []] := by
  constructor
  · exact (claude_stage_defaults_amended (fun _ => none) ['x'] "" "" [] .jnull).1 (by decide)
  · exact (claude_stage_defaults_amended c5parse c5raw "" "" [] .jnull).2.2.2.2 [] rfl

/-- Rounding to two decimals never turns a positive change negative. -/
lemma round2_nonneg_of (c : ℚ) (hc : 0 < c) : 0 ≤ round2 c := by
  have h2 : (0 : ℤ) ≤ round (c * 100) := by
    rw [round_eq]
    have h1 : (0 : ℚ) + 1 / 2 ≤ c * 100 + 1 / 2 := by nlinarith
    calc (0 : ℤ) = ⌊(0 : ℚ) + 1 / 2⌋ := by norm_num
      _ ≤ ⌊c * 100 + 1 / 2⌋ := Int.floor_le_floor h1
  have h3 : (0 : ℚ) ≤ (round (c * 100) : ℚ) := by exact_mod_cast h2
  exact div_nonneg h3 (by norm_num)

/-- Rounding to two decimals never turns a non-positive change positive. -/
lemma round2_nonpos_of (c : ℚ) (hc : c ≤ 0) : round2 c ≤ 0 := by
  have h2 : round (c * 100) ≤ (0 : ℤ) := by
    rw [round_eq]
    have h1 : c * 100 + 1 / 2 ≤ (0 : ℚ) + 1 / 2 := by nlinarith
    calc ⌊c * 100 + 1 / 2⌋ ≤ ⌊(0 : ℚ) + 1 / 2⌋ := Int.floor_le_floor h1
      _ = 0 := by norm_num
  have h3 : (round (c * 100) : ℚ) ≤ 0 := by exact_mod_cast h2
  exact div_nonpos_of_nonpos_of_nonneg h3 (by norm_num)

/-- When the rounded change is nonzero, it has the sign of the exact
change. -/
lemma round2_pos_iff (c : ℚ) (h : round2 c ≠ 0) : 0 < round2 c ↔ 0 < c := by
  rcases lt_trichotomy 0 c with hgt | heq | hlt
  · exact iff_of_true (lt_of_le_of_ne (round2_nonneg_of c hgt) (Ne.symm h)) hgt
  · exact absurd (by rw [← heq]; simp [round2]) h
  · have hlt' : round2 c < 0 := lt_of_le_of_ne (round2_nonpos_of c hlt.le) h
    exact iff_of_false (by linarith) (by linarith)

/-- The accuracy flag and the persisted (rounded) change of one horizon:
they are null together, and wherever the persisted change is nonzero the
flag equals the claimed sign comparison. -/
lemma horizon_accuracy (ch : Option ℚ) (up : Bool) :
    (accFlag ch up = none ↔ roundOpt ch = none)
    ∧ ∀ a b, roundOpt ch = some a → accFlag ch up = some b → a ≠ 0 →
        b = (decide (0 < a) == up) := by
  cases ch with
  | none =>
    refine ⟨by simp [accFlag, roundOpt], ?_⟩
    intro a b ha
    simp [roundOpt] at ha
  | some c =>
    refine ⟨by simp [accFlag, roundOpt], ?_⟩
    intro a b ha hb hne
    simp only [roundOpt, Option.map_some'] at ha
    injection ha with ha'
    subst ha'
    simp only [accFlag] at hb
    injection hb with hb'
    subst hb'
    have hd : decide (0 < c) = decide (0 < round2 c) :=
      decide_eq_decide.mpr (round2_pos_iff c hne).symm
    rw [hd]

/-- C1 (amended) — for every persisted `BacktestResult` and each horizon:
`accurate_h` is null exactly when `actual_h_change` is null, and whenever
the persisted `actual_h_change` is nonzero,
`accurate_h = ((actual_h_change > 0) == (lower(direction_predicted) == "up"))`
— the direction comparison is case-insensitive, and when rounding collapses
a small nonzero change to `0.00` the flag reflects the sign of the exact
pre-rounding change rather than the persisted value. -/
theorem backtest_accuracy_amended (priceO : String → ℤ → ℤ → List (ℤ × ℚ))
    (now : ℤ) (s : Signal) (r : BacktestResult)
    (h : backtest_signal priceO now s = some r) :
    ((r.accurate_1d = none ↔ r.actual_1d_change = none)
      ∧ ∀ a b, r.actual_1d_change = some a → r.accurate_1d = some b → a ≠ 0 →
          b = (decide (0 < a) == decide (pyLower r.direction_predicted = "up")))
    ∧ ((r.accurate_7d = none ↔ r.actual_7d_change = none)
      ∧ ∀ a b, r.actual_7d_change = some a → r.accurate_7d = some b → a ≠ 0 →
          b = (decide (0 < a) == decide (pyLower r.direction_predicted = "up")))
    ∧ ((r.accurate_30d = none ↔ r.actual_30d_change = none)
      ∧ ∀ a b, r.actual_30d_change = some a → r.accurate_30d = some b → a ≠ 0 →
          b = (decide (0 < a) == decide (pyLower r.direction_predicted = "up"))) := by
  simp only [backtest_signal] at h
  split at h
  · exact absurd h (by simp)
  split at h
  · exact absurd h (by simp)
  split at h
  · exact absurd h (by simp)
  split at h
  · exact absurd h (by simp)
  injection h with h
  subst h
  refine ⟨⟨?_, ?_⟩, ⟨?_, ?_⟩, ⟨?_, ?_⟩⟩
  · exact (horizon_accuracy _ _).1
  · exact (horizon_accuracy _ _).2
  · exact (horizon_accuracy _ _).1
  · exact (horizon_accuracy _ _).2
  · exact (horizon_accuracy _ _).1
  · exact (horizon_accuracy _ _).2

/-- Evaluation of `backtest_signal` on the concrete upper-case-direction
instance: the persisted row is `c1Result`. -/
lemma c1_eval : backtest_signal c1Oracle 0 c1Signal = some c1Result := by
  have h0 : find_nearest_price c1Prices 0 5 = some 100 := by decide
  have h1 : find_nearest_price c1Prices 1 5 = some 200 := by decide
  have h7 : find_nearest_price c1Prices 7 5 = none := by decide
  have h30 : find_nearest_price c1Prices 30 5 = none := by decide
  have hup : (decide (pyLower "UP" = "up")) = true := by decide
  simp only [backtest_signal, c1Signal, c1Oracle]
  norm_num [h0, h1, h7, h30, pctChange, accFlag, roundOpt, roundPriceOpt, round2,
    priceTruthy, round_eq, hup, c1Result]
  exact ⟨⟨by decide, by decide, by decide⟩, by decide⟩

/-- C1 (counterexample to the claim as stated) — a persisted result with
direction string "UP" and a +100% one-day move has `accurate_1d = true`,
but the claimed identity `(actual_1d_change > 0) == (direction_predicted ==
"up")` evaluates to `false`: the code compares the lower-cased direction,
the claim the stored string. -/
theorem backtest_accuracy_counterexample :
    backtest_signal c1Oracle 0 c1Signal = some c1Result
    ∧ c1Result.accurate_1d = some true
    ∧ c1Result.actual_1d_change = some 100
    ∧ (decide ((0 : ℚ) < 100) == decide (c1Result.direction_predicted = "up")) = false := by
  refine ⟨c1_eval, rfl, rfl, ?_⟩
  have ha : decide ((0 : ℚ) < 100) = true := decide_eq_true (by norm_num)
  have hb : decide (c1Result.direction_predicted = "up") = false := by decide
  rw [ha, hb]
  rfl

/-- Witness for C1 (amended) at the concrete instance: the flag equals the
case-insensitive sign comparison. -/
theorem backtest_accuracy_amended_witness :
    true = (decide ((0 : ℚ) < 100) == decide (pyLower c1Result.direction_predicted = "up")) :=
  (backtest_accuracy_amended c1Oracle 0 c1Signal c1Result c1_eval).1.2 100 true rfl rfl
    (by norm_num)

/-- The back-test loop appends exactly the successful rows of the processed
signals, in order, and counts them. -/
lemma btLoop_spec (priceO : String → ℤ → ℤ → List (ℤ × ℚ)) (now : ℤ) :
    ∀ (l : List Signal) (acc : List BacktestResult) (n : ℕ),
      btLoop priceO now l acc n =
        (n + (l.filterMap (backtest_signal priceO now)).length,
          acc ++ l.filterMap (backtest_signal priceO now)) := by
  intro l
  induction l with
  | nil => intro acc n; simp [btLoop]
  | cons s rest ih =>
    intro acc n
    rcases hbs : backtest_signal priceO now s with _ | r
    · simp [btLoop, hbs, ih]
    · simp [btLoop, hbs, ih]
      omega

/-- A persisted back-test row carries the id of the signal it was created
for. -/
lemma backtest_signal_signal_id (priceO : String → ℤ → ℤ → List (ℤ × ℚ))
    (now : ℤ) (s : Signal) (r : BacktestResult)
    (h : backtest_signal priceO now s = some r) : r.signal_id = s.id := by
  simp only [backtest_signal] at h
  split at h
  · exact absurd h (by simp)
  split at h
  · exact absurd h (by simp)
  split at h
  · exact absurd h (by simp)
  split at h
  · exact absurd h (by simp)
  injection h with h
  subst h
  rfl

/-- One validation run in closed form. -/
lemma run_backtest_closed (priceO : String → ℤ → ℤ → List (ℤ × ℚ)) (now : ℤ)
    (store : BtStore) :
    run_backtest_for_unvalidated priceO now store =
      (((untested_signals store).length,
          ((untested_signals store).filterMap (backtest_signal priceO now)).length),
        { store with results :=
            store.results ++ (untested_signals store).filterMap (backtest_signal priceO now) }) := by
  simp [run_backtest_for_unvalidated, btLoop_spec]

/-- C3 — the validation run processes exactly the signals that have a
non-null direction and no existing result, appends exactly their successful
rows, and a second run over the unchanged store tests only signals that
failed before and creates zero new results, leaving the store unchanged. -/
theorem run_backtest_idempotent (priceO : String → ℤ → ℤ → List (ℤ × ℚ))
    (now : ℤ) (store : BtStore) :
    (run_backtest_for_unvalidated priceO now store).1.1 = (untested_signals store).length
    ∧ (run_backtest_for_unvalidated priceO now store).2.signals = store.signals
    ∧ (run_backtest_for_unvalidated priceO now store).2.results =
        store.results ++ (untested_signals store).filterMap (backtest_signal priceO now)
    ∧ (run_backtest_for_unvalidated priceO now
        (run_backtest_for_unvalidated priceO now store).2).1.2 = 0
    ∧ (run_backtest_for_unvalidated priceO now
        (run_backtest_for_unvalidated priceO now store).2).2 =
      (run_backtest_for_unvalidated priceO now store).2 := by
  have h1 := run_backtest_closed priceO now store
  set store1 := (run_backtest_for_unvalidated priceO now store).2 with hst
  have hsig : store1.signals = store.signals := by rw [hst, h1]
  have hres : store1.results =
      store.results ++ (untested_signals store).filterMap (backtest_signal priceO now) := by
    rw [hst, h1]
  have hnone : ∀ s ∈ untested_signals store1, backtest_signal priceO now s = none := by
    intro s hs
    rcases hbs : backtest_signal priceO now s with _ | r
    · rfl
    · exfalso
      simp only [untested_signals, List.mem_filter, Bool.and_eq_true, decide_eq_true_eq]
        at hs
      have hmem := hs.1
      have hnot1 := hs.2.1
      have hdir := hs.2.2
      rw [hres] at hnot1
      rw [hsig] at hmem
      have hnot0 : s.id ∉ store.results.map (·.signal_id) := by
        intro hc
        exact hnot1 (by rw [List.map_append]; exact List.mem_append_left _ hc)
      have hs0 : s ∈ untested_signals store := by
        simp only [untested_signals, List.mem_filter, Bool.and_eq_true, decide_eq_true_eq]
        exact ⟨hmem, hnot0, hdir⟩
      have hrmem : r ∈ (untested_signals store).filterMap (backtest_signal priceO now) :=
        List.mem_filterMap.mpr ⟨s, hs0, hbs⟩
      apply hnot1
      rw [List.map_append]
      refine List.mem_append_right _ ?_
      rw [← backtest_signal_signal_id priceO now s r hbs]
      exact List.mem_map_of_mem _ hrmem
  have hfm : (untested_signals store1).filterMap (backtest_signal priceO now) = [] :=
    List.filterMap_eq_nil_iff.mpr hnone
  have h2 := run_backtest_closed priceO now store1
  refine ⟨by rw [h1], hsig, hres, ?_, ?_⟩
  · rw [h2, hfm]
    rfl
  · rw [h2, hfm]
    simp

/-- The RSS ingest never removes stored hashes. -/
lemma ingest_feed_mono (hashUrl : String → String) :
    ∀ (entries : List String) (db : List String) (x : String),
      x ∈ db → x ∈ (ingest_feed hashUrl entries db).2 := by
  intro entries
  induction entries with
  | nil => intro db x hx; simpa [ingest_feed] using hx
  | cons url rest ih =>
    intro db x hx
    by_cases h0 : url = ""
    · simpa [ingest_feed, h0] using ih db x hx
    · by_cases h1 : hashUrl url ∈ db
      · simpa [ingest_feed, h0, h1] using ih db x hx
      · simpa [ingest_feed, h0, h1] using
          ih (db ++ [hashUrl url]) x (List.mem_append_left _ hx)

/-- After an RSS ingest every non-empty entry URL is stored (by hash). -/
lemma ingest_feed_covers (hashUrl : String → String) :
    ∀ (entries : List String) (db : List String) (u : String),
      u ∈ entries → u ≠ "" → hashUrl u ∈ (ingest_feed hashUrl entries db).2 := by
  intro entries
  induction entries with
  | nil => intro db u hu; exact absurd hu (by simp)
  | cons url rest ih =>
    intro db u hu hne
    rcases List.mem_cons.mp hu with rfl | hu'
    · by_cases h1 : hashUrl u ∈ db
      · simpa [ingest_feed, hne, h1] using ingest_feed_mono hashUrl rest db _ h1
      · simpa [ingest_feed, hne, h1] using
          ingest_feed_mono hashUrl rest (db ++ [hashUrl u]) _
            (List.mem_append_right _ (by simp))
    · by_cases h0 : url = ""
      · simpa [ingest_feed, h0] using ih db u hu' hne
      · by_cases h1 : hashUrl url ∈ db
        · simpa [ingest_feed, h0, h1] using ih db u hu' hne
        · simpa [ingest_feed, h0, h1] using ih (db ++ [hashUrl url]) u hu' hne

/-- An RSS ingest over entries that are all already stored is a no-op. -/
lemma ingest_feed_stable (hashUrl : String → String) :
    ∀ (entries : List String) (db : List String),
      (∀ u ∈ entries, u ≠ "" → hashUrl u ∈ db) →
      ingest_feed hashUrl entries db = ([], db) := by
  intro entries
  induction entries with
  | nil => intro db _; rfl
  | cons url rest ih =>
    intro db hcov
    by_cases h0 : url = ""
    · simpa [ingest_feed, h0] using ih db fun u hu => hcov u (List.mem_cons_of_mem _ hu)
    · have h1 : hashUrl url ∈ db := hcov url (by simp) h0
      simpa [ingest_feed, h0, h1] using
        ih db fun u hu => hcov u (List.mem_cons_of_mem _ hu)

/-- `ingest_all_feeds` never removes stored hashes. -/
lemma ingest_all_feeds_mono (hashUrl : String → String) :
    ∀ (feeds : List (List String)) (db : List String) (x : String),
      x ∈ db → x ∈ (ingest_all_feeds hashUrl feeds db).2 := by
  intro feeds
  induction feeds with
  | nil => intro db x hx; simpa [ingest_all_feeds] using hx
  | cons feed rest ih =>
    intro db x hx
    simpa [ingest_all_feeds] using
      ih (ingest_feed hashUrl feed db).2 x (ingest_feed_mono hashUrl feed db x hx)

/-- After `ingest_all_feeds`, every non-empty entry of every feed is
stored. -/
lemma ingest_all_feeds_covers (hashUrl : String → String) :
    ∀ (feeds : List (List String)) (db : List String) (feed : List String)
      (u : String), feed ∈ feeds → u ∈ feed → u ≠ "" →
      hashUrl u ∈ (ingest_all_feeds hashUrl feeds db).2 := by
  intro feeds
  induction feeds with
  | nil => intro db feed u hf; exact absurd hf (by simp)
  | cons f0 rest ih =>
    intro db feed u hf hu hne
    rcases List.mem_cons.mp hf with rfl | hf'
    · simpa [ingest_all_feeds] using
        ingest_all_feeds_mono hashUrl rest (ingest_feed hashUrl feed db).2 _
          (ingest_feed_covers hashUrl feed db u hu hne)
    · simpa [ingest_all_feeds] using
        ih (ingest_feed hashUrl f0 db).2 feed u hf' hu hne

/-- A full RSS pass over feeds whose entries are all stored is a no-op. -/
lemma ingest_all_feeds_stable (hashUrl : String → String) :
    ∀ (feeds : List (List String)) (db : List String),
      (∀ feed ∈ feeds, ∀ u ∈ feed, u ≠ "" → hashUrl u ∈ db) →
      ingest_all_feeds hashUrl feeds db = (0, db) := by
  intro feeds
  induction feeds with
  | nil => intro db _; rfl
  | cons f0 rest ih =>
    intro db hcov
    have h0 : ingest_feed hashUrl f0 db = ([], db) :=
      ingest_feed_stable hashUrl f0 db (hcov f0 (by simp))
    have h1 : ingest_all_feeds hashUrl rest db = (0, db) :=
      ih db fun feed hf => hcov feed (List.mem_cons_of_mem _ hf)
    simp [ingest_all_feeds, h0, h1]

/-- A scrape whose candidates are all already stored collects nothing. -/
lemma scrapeLoop_nil (hashUrl : String → String) (db : List String) (limit : ℕ) :
    ∀ (cands seen : List String),
      (∀ u ∈ cands, hashUrl u ∈ db) →
      scrapeLoop hashUrl db limit cands seen [] = [] := by
  intro cands
  induction cands with
  | nil => intro seen _; rfl
  | cons url rest ih =>
    intro seen hcov
    by_cases hl : limit ≤ 0
    · simp [scrapeLoop, hl]
    · by_cases hs : url ∈ seen
      · simpa [scrapeLoop, hl, hs] using
          ih seen fun u hu => hcov u (List.mem_cons_of_mem _ hu)
      · have hd : hashUrl url ∈ db := hcov url (by simp)
        simpa [scrapeLoop, hl, hs, hd] using
          ih (seen ++ [url]) fun u hu => hcov u (List.mem_cons_of_mem _ hu)

/-- The scrape accumulator is only ever extended. -/
lemma scrapeLoop_acc_sub (hashUrl : String → String) (db : List String) (limit : ℕ) :
    ∀ (cands seen acc : List String) (x : String),
      x ∈ acc → x ∈ scrapeLoop hashUrl db limit cands seen acc := by
  intro cands
  induction cands with
  | nil => intro seen acc x hx; simpa [scrapeLoop] using hx
  | cons url rest ih =>
    intro seen acc x hx
    by_cases hl : limit ≤ acc.length
    · simpa [scrapeLoop, hl] using hx
    · by_cases hs : url ∈ seen
      · simpa [scrapeLoop, hl, hs] using ih seen acc x hx
      · by_cases hd : hashUrl url ∈ db
        · simpa [scrapeLoop, hl, hs, hd] using ih (seen ++ [url]) acc x hx
        · simpa [scrapeLoop, hl, hs, hd] using
            ih (seen ++ [url]) (acc ++ [url]) x (List.mem_append_left _ hx)

/-- When the candidate list fits under the limit, every candidate is either
already stored or ends up in the scraped output (its first occurrence is
processed; later duplicates are screened by the seen set). -/
lemma scrapeLoop_covers (hashUrl : String → String) (db : List String) (limit : ℕ) :
    ∀ (cands seen acc : List String),
      acc.length + cands.length ≤ limit →
      (∀ v ∈ seen, hashUrl v ∈ db ∨ v ∈ acc) →
      ∀ u ∈ cands, hashUrl u ∈ db ∨ u ∈ scrapeLoop hashUrl db limit cands seen acc := by
  intro cands
  induction cands with
  | nil => intro seen acc _ _ u hu; exact absurd hu (by simp)
  | cons url rest ih =>
    intro seen acc hlen hseen u hu
    have hl : ¬ limit ≤ acc.length := by
      simp only [List.length_cons] at hlen
      omega
    by_cases hs : url ∈ seen
    · rcases List.mem_cons.mp hu with rfl | hu'
      · rcases hseen u hs with hdb | hacc
        · exact Or.inl hdb
        · exact Or.inr (by simpa [scrapeLoop, hl, hs] using
            scrapeLoop_acc_sub hashUrl db limit rest seen acc u hacc)
      · have := ih seen acc (by simp only [List.length_cons] at hlen; omega) hseen u hu'
        rcases this with hdb | hres
        · exact Or.inl hdb
        · exact Or.inr (by simpa [scrapeLoop, hl, hs] using hres)
    · by_cases hd : hashUrl url ∈ db
      · rcases List.mem_cons.mp hu with rfl | hu'
        · exact Or.inl hd
        · have hseen' : ∀ v ∈ seen ++ [url], hashUrl v ∈ db ∨ v ∈ acc := by
            intro v hv
            rcases List.mem_append.mp hv with hv' | hv'
            · exact hseen v hv'
            · simp only [List.mem_singleton] at hv'
              exact Or.inl (hv' ▸ hd)
          have := ih (seen ++ [url]) acc (by simp only [List.length_cons] at hlen; omega)
            hseen' u hu'
          rcases this with hdb | hres
          · exact Or.inl hdb
          · exact Or.inr (by simpa [scrapeLoop, hl, hs, hd] using hres)
      · have hseen' : ∀ v ∈ seen ++ [url], hashUrl v ∈ db ∨ v ∈ acc ++ [url] := by
          intro v hv
          rcases List.mem_append.mp hv with hv' | hv'
          · rcases hseen v hv' with hdb | hacc
            · exact Or.inl hdb
            · exact Or.inr (List.mem_append_left _ hacc)
          · simp only [List.mem_singleton] at hv'
            exact Or.inr (hv' ▸ List.mem_append_right _ (by simp))
        rcases List.mem_cons.mp hu with rfl | hu'
        · refine Or.inr ?_
          simp only [scrapeLoop, if_neg hl, if_neg hs, if_neg hd]
          exact scrapeLoop_acc_sub hashUrl db limit rest (seen ++ [u]) (acc ++ [u]) u
            (List.mem_append_right _ (by simp))
        · have := ih (seen ++ [url]) (acc ++ [url])
            (by simp at hlen ⊢; omega)
            hseen' u hu'
          rcases this with hdb | hres
          · exact Or.inl hdb
          · exact Or.inr (by simpa [scrapeLoop, hl, hs, hd] using hres)

/-- The orchestrator's per-article persist loop never removes stored
hashes. -/
lemma insertArticles_mono (hashUrl : String → String) :
    ∀ (arts db : List String) (x : String),
      x ∈ db → x ∈ (insertArticles hashUrl arts db).2 := by
  intro arts
  induction arts with
  | nil => intro db x hx; simpa [insertArticles] using hx
  | cons url rest ih =>
    intro db x hx
    by_cases hd : hashUrl url ∈ db
    · simpa [insertArticles, hd] using ih db x hx
    · simpa [insertArticles, hd] using
        ih (db ++ [hashUrl url]) x (List.mem_append_left _ hx)

/-- After the persist loop, every scraped article's hash is stored (the
duplicate-key rollback path leaves an already-present hash in place). -/
lemma insertArticles_covers (hashUrl : String → String) :
    ∀ (arts db : List String) (u : String),
      u ∈ arts → hashUrl u ∈ (insertArticles hashUrl arts db).2 := by
  intro arts
  induction arts with
  | nil => intro db u hu; exact absurd hu (by simp)
  | cons url rest ih =>
    intro db u hu
    rcases List.mem_cons.mp hu with rfl | hu'
    · by_cases hd : hashUrl u ∈ db
      · simpa [insertArticles, hd] using insertArticles_mono hashUrl rest db _ hd
      · simpa [insertArticles, hd] using
          insertArticles_mono hashUrl rest (db ++ [hashUrl u]) _
            (List.mem_append_right _ (by simp))
    · by_cases hd : hashUrl url ∈ db
      · simpa [insertArticles, hd] using ih db u hu'
      · simpa [insertArticles, hd] using ih (db ++ [hashUrl url]) u hu'

/-- The web-scrape ingestion never removes stored hashes. -/
lemma ingest_all_news_mono (hashUrl : String → String) (limit : ℕ) :
    ∀ (sources : List (List String)) (db : List String) (x : String),
      x ∈ db → x ∈ (ingest_all_news hashUrl limit sources db).2 := by
  intro sources
  induction sources with
  | nil => intro db x hx; simpa [ingest_all_news] using hx
  | cons src rest ih =>
    intro db x hx
    simpa [ingest_all_news] using
      ih (insertArticles hashUrl (scrapeSource hashUrl src limit db) db).2 x
        (insertArticles_mono hashUrl _ db x hx)

/-- When every source's candidate list fits under the per-source limit, the
web-scrape ingestion stores every candidate's hash. -/
lemma ingest_all_news_covers (hashUrl : String → String) (limit : ℕ) :
    ∀ (sources : List (List String)) (db : List String),
      (∀ src ∈ sources, src.length ≤ limit) →
      ∀ src ∈ sources, ∀ u ∈ src,
        hashUrl u ∈ (ingest_all_news hashUrl limit sources db).2 := by
  intro sources
  induction sources with
  | nil => intro db _ src hsrc; exact absurd hsrc (by simp)
  | cons s0 rest ih =>
    intro db hlim src hsrc u hu
    rcases List.mem_cons.mp hsrc with rfl | hsrc'
    · have hcov := scrapeLoop_covers hashUrl db limit src [] []
        (by simpa using hlim src (by simp)) (by simp) u hu
      have hdb1 : hashUrl u ∈
          (insertArticles hashUrl (scrapeSource hashUrl src limit db) db).2 := by
        rcases hcov with hdb | hacc
        · exact insertArticles_mono hashUrl _ db _ hdb
        · exact insertArticles_covers hashUrl _ db u hacc
      simpa [ingest_all_news] using ingest_all_news_mono hashUrl limit rest _ _ hdb1
    · simpa [ingest_all_news] using
        ih (insertArticles hashUrl (scrapeSource hashUrl s0 limit db) db).2
          (fun s hs => hlim s (List.mem_cons_of_mem _ hs)) src hsrc' u hu

/-- A web-scrape ingestion over sources whose candidates are all stored is a
no-op. -/
lemma ingest_all_news_stable (hashUrl : String → String) (limit : ℕ) :
    ∀ (sources : List (List String)) (db : List String),
      (∀ src ∈ sources, ∀ u ∈ src, hashUrl u ∈ db) →
      ingest_all_news hashUrl limit sources db = (0, db) := by
  intro sources
  induction sources with
  | nil => intro db _; rfl
  | cons s0 rest ih =>
    intro db hcov
    have h0 : scrapeSource hashUrl s0 limit db = [] :=
      scrapeLoop_nil hashUrl db limit s0 [] (hcov s0 (by simp))
    have h1 : ingest_all_news hashUrl limit rest db = (0, db) :=
      ih db fun s hs => hcov s (List.mem_cons_of_mem _ hs)
    simp [ingest_all_news, scrapeSource] at h0 ⊢
    simp [h0, insertArticles, h1]

/-- C4 (amended) — ingestion deduplicates by stored URL hash in every
source, and a second run against the same upstream content inserts zero new
ContentItems provided each web source's candidate list fit under the
per-source limit in the first run.  (Without that proviso the second run
picks up candidates the limit cut off, as the counterexample shows; the RSS
path needs no proviso.) -/
theorem ingestion_idempotent_amended (hashUrl : String → String)
    (feeds sources : List (List String)) (limit : ℕ) (db : List String)
    (hlim : ∀ src ∈ sources, src.length ≤ limit) :
    ingestion_run hashUrl feeds sources limit
        (ingestion_run hashUrl feeds sources limit db).2 =
      (0, (ingestion_run hashUrl feeds sources limit db).2) := by
  set db1 := (ingest_all_feeds hashUrl feeds db).2 with hdb1
  have hfinal : (ingestion_run hashUrl feeds sources limit db).2 =
      (ingest_all_news hashUrl limit sources db1).2 := rfl
  set db2 := (ingest_all_news hashUrl limit sources db1).2 with hdb2
  have hrss : ∀ feed ∈ feeds, ∀ u ∈ feed, u ≠ "" → hashUrl u ∈ db2 := by
    intro feed hf u hu hne
    exact ingest_all_news_mono hashUrl limit sources db1 _
      (ingest_all_feeds_covers hashUrl feeds db feed u hf hu hne)
  have hweb : ∀ src ∈ sources, ∀ u ∈ src, hashUrl u ∈ db2 := by
    intro src hs u hu
    exact ingest_all_news_covers hashUrl limit sources db1 hlim src hs u hu
  have h1 : ingest_all_feeds hashUrl feeds db2 = (0, db2) :=
    ingest_all_feeds_stable hashUrl feeds db2 hrss
  have h2 : ingest_all_news hashUrl limit sources db2 = (0, db2) :=
    ingest_all_news_stable hashUrl limit sources db2 hweb
  rw [hfinal]
  simp only [ingestion_run, ← hdb2, h1, h2]

/-- C4 (counterexample to the claim as stated) — one web source exposing two
candidate articles with a per-source limit of 1: the first run ingests only
the first candidate (one item), and a second run against the identical
upstream content ingests the second candidate (one more item, not zero) —
the database dedup skips the stored URL without counting it against the
limit, so the scrape reaches fresh candidates beyond the first run's cap. -/
theorem ingestion_idempotence_counterexample :
    ingestion_run (fun u => u) [] [["a", "b"]] 1 [] = (1, ["a"])
    ∧ ingestion_run (fun u => u) [] [["a", "b"]] 1 ["a"] = (1, ["a", "b"]) := by
  constructor <;> rfl

/-- Witness for C4 (amended): a one-feed, one-source universe whose source
fits under the limit; the second run is a no-op. -/
theorem ingestion_idempotent_witness :
    ingestion_run (fun u => u) [["x"]] [["y"]] 1
        (ingestion_run (fun u => u) [["x"]] [["y"]] 1 []).2 =
      (0, (ingestion_run (fun u => u) [["x"]] [["y"]] 1 []).2) :=
  ingestion_idempotent_amended (fun u => u) [["x"]] [["y"]] 1 [] (by decide)

/-- Membership through the descending insertion. -/
lemma insertDesc_mem (a : Article) :
    ∀ (l : List Article) (x : Article), x ∈ insertDesc a l ↔ x = a ∨ x ∈ l := by
  intro l
  induction l with
  | nil => intro x; simp [insertDesc]
  | cons b rest ih =>
    intro x
    by_cases hk : pubKey b ≤ pubKey a
    · simp [insertDesc, hk]
    · simp [insertDesc, hk, ih]
      tauto

/-- Membership through the selection sort. -/
lemma sortByPublishedDesc_mem :
    ∀ (l : List Article) (x : Article), x ∈ sortByPublishedDesc l ↔ x ∈ l := by
  intro l
  induction l with
  | nil => intro x; simp [sortByPublishedDesc]
  | cons a rest ih =>
    intro x
    rw [sortByPublishedDesc, insertDesc_mem, ih]
    simp

/-- A selected article is an unprocessed row of the store. -/
lemma selectUnprocessed_sub (db : PDB) (limit : ℕ) (a : Article)
    (ha : a ∈ selectUnprocessed db limit) :
    a ∈ db.articles ∧ a.processed = false := by
  have h1 : a ∈ sortByPublishedDesc (db.articles.filter fun b => b.processed = false) :=
    List.take_subset _ _ ha
  rw [sortByPublishedDesc_mem] at h1
  have h2 := List.mem_filter.mp h1
  exact ⟨h2.1, by simpa using h2.2⟩

/-- Marking a row processed makes every row with that id processed. -/
lemma markProcessed_sets (i : ℕ) (db : PDB) :
    ∀ b ∈ (markProcessed i db).articles, b.id = i → b.processed = true := by
  intro b hb hid
  simp only [markProcessed, List.mem_map] at hb
  obtain ⟨c, hc, hcb⟩ := hb
  by_cases hca : c.id = i
  · rw [← hcb]
    simp [hca]
  · rw [if_neg hca] at hcb
    exact absurd (hcb ▸ hid) hca

/-- Marking a row processed preserves any already-processed id. -/
lemma markProcessed_keeps (i j : ℕ) (db : PDB)
    (h : ∀ b ∈ db.articles, b.id = i → b.processed = true) :
    ∀ b ∈ (markProcessed j db).articles, b.id = i → b.processed = true := by
  intro b hb hid
  simp only [markProcessed, List.mem_map] at hb
  obtain ⟨c, hc, hcb⟩ := hb
  by_cases hca : c.id = j
  · rw [← hcb]
    simp [hca]
  · rw [if_neg hca] at hcb
    exact hcb ▸ h c hc (hcb ▸ hid)

/-- Whatever path `process_article` takes, its effect on the article rows is
exactly the processed-mark of the input article. -/
lemma process_article_articles (env : PipelineEnv) (a : Article) (db : PDB) :
    (process_article env a db).2.1.articles = (markProcessed a.id db).articles := by
  by_cases h : (env.entO a.title (articleContent a)).isEmpty <;>
    simp [process_article, h, markProcessed]

/-- The per-article loop preserves processed ids. -/
lemma processLoop_keeps (env : PipelineEnv) (failO : Article → Bool) :
    ∀ (todo : List Article) (db : PDB) (total i : ℕ),
      (∀ b ∈ db.articles, b.id = i → b.processed = true) →
      ∀ b ∈ (processLoop env failO todo db total).2.articles,
        b.id = i → b.processed = true := by
  intro todo
  induction todo with
  | nil => intro db total i h; simpa [processLoop] using h
  | cons a rest ih =>
    intro db total i h
    by_cases hf : failO a
    · simpa [processLoop, hf] using
        ih (markProcessed a.id db) total i (markProcessed_keeps i a.id db h)
    · have h1 : ∀ b ∈ (process_article env a db).2.1.articles,
          b.id = i → b.processed = true := by
        rw [process_article_articles]
        exact markProcessed_keeps i a.id db h
      simpa [processLoop, hf] using ih (process_article env a db).2.1 _ i h1

/-- Every article of the batch ends the loop with `processed = true` —
including articles whose `process_article` raised. -/
lemma processLoop_marks (env : PipelineEnv) (failO : Article → Bool) :
    ∀ (todo : List Article) (db : PDB) (total : ℕ) (a : Article), a ∈ todo →
      ∀ b ∈ (processLoop env failO todo db total).2.articles,
        b.id = a.id → b.processed = true := by
  intro todo
  induction todo with
  | nil => intro db total a ha; exact absurd ha (by simp)
  | cons a0 rest ih =>
    intro db total a ha
    rcases List.mem_cons.mp ha with rfl | ha'
    · by_cases hf : failO a
      · simpa [processLoop, hf] using
          processLoop_keeps env failO rest (markProcessed a.id db) total a.id
            (markProcessed_sets a.id db)
      · have hset : ∀ b ∈ (process_article env a db).2.1.articles,
            b.id = a.id → b.processed = true := by
          rw [process_article_articles]
          exact markProcessed_sets a.id db
        simpa [processLoop, hf] using
          processLoop_keeps env failO rest (process_article env a db).2.1 _ a.id hset
    · by_cases hf : failO a0
      · simpa [processLoop, hf] using ih (markProcessed a0.id db) total a ha'
      · simpa [processLoop, hf] using ih (process_article env a0 db).2.1 _ a ha'

/-- C10 — forward progress: every article selected by
`process_unprocessed_articles` (the unprocessed batch, up to the limit)
ends the run with `processed = true` — the error handler marks even a
failing article processed and commits — so none of the selected articles is
ever re-selected by a later run. -/
theorem pipeline_forward_progress (env : PipelineEnv) (failO : Article → Bool)
    (db : PDB) (limit : ℕ) :
    (∀ a ∈ selectUnprocessed db limit,
      ∀ b ∈ (process_unprocessed_articles env failO db limit).2.articles,
        b.id = a.id → b.processed = true)
    ∧ (∀ a ∈ selectUnprocessed db limit,
        ∀ a2 ∈ selectUnprocessed (process_unprocessed_articles env failO db limit).2 limit,
          a2.id ≠ a.id) := by
  have hmain : ∀ a ∈ selectUnprocessed db limit,
      ∀ b ∈ (process_unprocessed_articles env failO db limit).2.articles,
        b.id = a.id → b.processed = true := by
    intro a ha
    exact processLoop_marks env failO (selectUnprocessed db limit) db 0 a ha
  refine ⟨hmain, ?_⟩
  intro a ha a2 ha2 heq
  have h2 := selectUnprocessed_sub _ limit a2 ha2
  have h3 := hmain a ha a2 h2.1 heq
  rw [h2.2] at h3
  exact Bool.false_ne_true h3

/-- Witness for C10: the single unprocessed article of `pdb0` is in the
final store with its processed flag set. -/
theorem pipeline_forward_progress_witness :
    { art0 with processed := true } ∈
      (process_unprocessed_articles envNoEntities (fun _ => false) pdb0 1).2.articles
    ∧ ({ art0 with processed := true } : Article).processed = true := by
  have heval : (process_unprocessed_articles envNoEntities (fun _ => false) pdb0 1).2.articles =
      [{ art0 with processed := true }] := by decide
  have hmem : { art0 with processed := true } ∈
      (process_unprocessed_articles envNoEntities (fun _ => false) pdb0 1).2.articles := by
    rw [heval]
    simp
  have hsel' : selectUnprocessed pdb0 1 = [art0] := by decide
  have hsel : art0 ∈ selectUnprocessed pdb0 1 := by
    rw [hsel']
    simp
  exact ⟨hmem,
    (pipeline_forward_progress envNoEntities (fun _ => false) pdb0 1).1 art0 hsel
      { art0 with processed := true } hmem rfl⟩
